import Mathlib

/-!
Verification development for the photo-sorter pipeline (src/main.py).

The per-file pipeline of `sort_photos` is shallowly embedded as pure Lean
functions.  External effects (the EXIF decoder, `stat`, `calculate_hash` on the
source, the state of the destination disk, and the success or failure of each
`os.remove` / `shutil.move` / HEIC re-encode call) are supplied as observation
fields of a `FileEnv` record, one per discovered file; the pipeline itself —
classification, date resolution, bucket assignment, run-scoped dedup,
conflict-resolution loops, counter updates and the per-file exception
handler — is transcribed from the source.
-/

namespace PhotoSorter

/-- Destination root, mirroring `DEST_DIR = SCRIPT_DIR / "sorted_photos"`. -/
def DEST_DIR : String := "sorted_photos"

/-- `NO_DATE_DIR = DEST_DIR / "no_date"`. -/
def NO_DATE_DIR : String := DEST_DIR ++ "/no_date"

/-- `ARCHIVES_DIR = DEST_DIR / "archives"`. -/
def ARCHIVES_DIR : String := DEST_DIR ++ "/archives"

/-- `ERROR_DIR = DEST_DIR / "errors"`. -/
def ERROR_DIR : String := DEST_DIR ++ "/errors"

/-- `IMAGE_EXTENSIONS` from main.py. -/
def IMAGE_EXTENSIONS : List String :=
  [".jpg", ".jpeg", ".png", ".gif", ".tiff", ".bmp", ".heic", ".heif"]

/-- `VIDEO_EXTENSIONS` from main.py. -/
def VIDEO_EXTENSIONS : List String :=
  [".mp4", ".avi", ".mov", ".wmv", ".mkv", ".flv", ".mpeg", ".mpg", ".m4v"]

/-- `HEIC_EXTENSIONS` from main.py. -/
def HEIC_EXTENSIONS : List String := [".heic", ".heif"]

/-- `ARCHIVE_EXTENSIONS` from main.py. -/
def ARCHIVE_EXTENSIONS : List String :=
  [".zip", ".rar", ".7z", ".tar", ".gz", ".bz2", ".xz", ".tar.gz", ".tar.bz2", ".tar.xz"]

/-- A value stored under an EXIF tag: either a Python `str`, or a value of some
other type (only its truthiness is observable to the source code, which tests
`date_str and isinstance(date_str, str)`). -/
inductive ExifVal where
  | str (s : String)
  | nonStr (truthy : Bool)

/-- The kind of exception the decoder run raises inside `get_date_taken`:
`FileNotFoundError`, `UnidentifiedImageError`, or any other exception. -/
inductive DecodeExc where
  | fnfExc
  | unidExc
  | genExc
deriving DecidableEq

/-- One observed run of the metadata decoder on a file: either
`Image.open` + `img.load()` + `img._getexif()` all succeed, yielding the EXIF
dictionary (`none` models a falsy `exif_data`), or an exception is raised —
`afterOpen = false` means `Image.open` itself raised (no handle was acquired),
`afterOpen = true` means `img.load()` / `img._getexif()` raised after the
handle was acquired. -/
inductive DecodeRun where
  | ok (exif : Option (Nat → Option ExifVal))
  | raised (afterOpen : Bool) (k : DecodeExc)

/-- The tag-acceptance logic of `get_date_taken` (lines 114-124 of main.py):
`if date_str and isinstance(date_str, str) and len(date_str) >= 10:` and then
`if date_str[4] == ":" and date_str[7] == ":": year = date_str[:4]`. -/
def tagYear : Option ExifVal → Option String
  | some (.str s) =>
      if s ≠ "" ∧ 10 ≤ s.data.length ∧ s.data.get? 4 = some ':' ∧ s.data.get? 7 = some ':' then
        some (String.mk (s.data.take 4))
      else none
  | _ => none

/-- Lines 112-124: read tag 36867 (`DateTimeOriginal`) first; if it yields no
year, fall back to tag 306 (`DateTime`).  A falsy `exif_data` yields no year. -/
def exifYear (exif : Option (Nat → Option ExifVal)) : Option String :=
  match exif with
  | none => none
  | some data =>
      match tagYear (data 36867) with
      | some y => some y
      | none => tagYear (data 306)

/-- `get_date_taken` (lines 96-148): for a recognized image extension, run the
decoder; on success return the EXIF year (or `none`); on `FileNotFoundError`
return the sentinel string `"error"`; on `UnidentifiedImageError` or any other
exception fall through and return `none`.  Non-image extensions never attempt
EXIF and return `none`. -/
def get_date_taken (ext : String) (d : DecodeRun) : Option String :=
  if ext ∈ IMAGE_EXTENSIONS then
    match d with
    | .ok exif => exifYear exif
    | .raised _ .fnfExc => some "error"
    | .raised _ .unidExc => none
    | .raised _ .genExc => none
  else none

/-- Result of `get_date_taken` together with the decoder-handle bookkeeping:
whether a handle was acquired by `Image.open` and whether `img.close()`
(line 127) was executed. -/
structure HandleTrace where
  result : Option String
  opened : Bool
  closed : Bool
deriving DecidableEq

/-- `get_date_taken` with its decoder-handle life-cycle made explicit.
`img.close()` sits on the straight-line path after the EXIF read (line 127),
not in a `finally`/`with` block, so it runs only when no exception is raised;
when the decoder raises after `Image.open` succeeded, the handler at lines
132-145 catches the exception and the handle is never closed. -/
def get_date_taken_handle (ext : String) (d : DecodeRun) : HandleTrace :=
  if ext ∈ IMAGE_EXTENSIONS then
    match d with
    | .ok exif => ⟨exifYear exif, true, true⟩
    | .raised afterOpen k =>
        ⟨match k with
          | .fnfExc => some "error"
          | .unidExc => none
          | .genExc => none,
         afterOpen, false⟩
  else ⟨none, false, false⟩

/-- `get_file_size_category` (lines 70-93).  The `stat` result is supplied as
an observation: `none` models the `except` branch (stat failed), `some n` a
byte size of `n`.  Python computes `size_mb = size_bytes / (1024 * 1024)` in
binary floating point; division by the power of two `2^20` is exact for every
integer below `2^53` and the comparisons against 0.5/1/2/5/10 are unaffected by
rounding above that, so the exact rational computation below classifies every
byte size identically. -/
def get_file_size_category (statSize : Option Nat) : String :=
  match statSize with
  | none => "unknown_size"
  | some szBytes =>
      let sizeMB : ℚ := (szBytes : ℚ) / (1024 * 1024)
      if sizeMB < 0.5 then "tiny_under_0.5MB"
      else if sizeMB < 1 then "small_0.5-1MB"
      else if sizeMB < 2 then "medium_1-2MB"
      else if sizeMB < 5 then "large_2-5MB"
      else if sizeMB < 10 then "xlarge_5-10MB"
      else "huge_over_10MB"

/-- `str.lower()` applied to an extension (`source_path.suffix.lower()`,
lines 101 and 216): lower-case character by character.  Extensions are ASCII,
where `Char.toLower` agrees with Python's `str.lower`. -/
def pyLower (s : String) : String := String.mk (s.data.map Char.toLower)

/-- `str(x).startswith(str(pre))` (lines 378, 449, 455). -/
def pyStarts (pre s : String) : Bool := pre.data.isPrefixOf s.data

/-- Python truthiness of an `Optional[str]` value (`if current_file_hash:` and
the left operand of `existing_file_hash and ...`): `None` and the empty string
are falsy. -/
def truthyStr : Option String → Bool
  | none => false
  | some s => s ≠ ""

/-- Whether `shutil.move(source, dest)` succeeded or which exception it raised.
These are the exceptions distinguished by the per-file handler at lines
468-492. -/
inductive MoveRes where
  | ok
  | notFound
  | permission
  | failed
deriving DecidableEq

/-- The per-file environment: everything `sort_photos` observes about one
discovered file and its surroundings while processing it.

* `stem`/`suffix` decompose the file name as `pathlib` does
  (`name = stem ++ suffix`);
* `inDest` is `DEST_DIR in source_path.parents` (line 209);
* `decode` is the decoder run observed by `get_date_taken`;
* `statSize` is the `stat` result observed by `get_file_size_category`;
* `hash` is the result of `calculate_hash(source_path)` (`none` = read failed);
* `disk target name` reports, for the existence checks of the conflict loops,
  whether `target / name` exists and, if so, what `calculate_hash` returns for
  it (`some none` = exists but unhashable);
* `fuel` bounds the conflict-loop iterations the model will unfold (a real
  directory holds finitely many entries, so the `while` loops of the source
  always terminate; the model reports `fuelOut` if `fuel` is too small);
* the remaining Booleans report success of the individual filesystem calls:
  `removeSourceOk` for the `os.remove(source_path)` calls, `convertOk` for the
  HEIC `img.save`, `removeAfterConvertOk` for deleting the original HEIC after
  conversion, `heicErrorMoveOk` for the `shutil.move` at line 395,
  `srcExistsAtHandler` for `source_path.exists()` at line 482, and
  `handlerMoveOk` for the `shutil.move` at line 489;
* `moveRes` is the outcome of the generic `shutil.move` at line 442. -/
structure FileEnv where
  stem : String
  suffix : String
  inDest : Bool
  decode : DecodeRun
  statSize : Option Nat
  hash : Option String
  disk : String → String → Option (Option String)
  fuel : Nat
  removeSourceOk : Bool
  convertOk : Bool
  removeAfterConvertOk : Bool
  heicErrorMoveOk : Bool
  srcExistsAtHandler : Bool
  handlerMoveOk : Bool
  moveRes : MoveRes

/-- The media-type tag computed at lines 222-237. -/
inductive MType where
  | image
  | video
  | archiveT
  | otherT
deriving DecidableEq

/-- The run counters of `sort_photos` (lines 183-191) together with
`hashes_in_destination` (line 192), the per-bucket multiset of content hashes
recorded during this run.  Python stores a `set`; we store the insertion list —
only membership is ever consulted. -/
structure RunState where
  moved : Nat
  videoMoved : Nat
  heicConverted : Nat
  noDate : Nat
  archiveMoved : Nat
  deletedNonMedia : Nat
  errors : Nat
  skipped : Nat
  dupDeleted : Nat
  hashes : List (String × List (Option String))

/-- The all-zero state at the start of a run. -/
def initState : RunState := ⟨0, 0, 0, 0, 0, 0, 0, 0, 0, []⟩

/-- Lookup of `hashes_in_destination.setdefault(str(target_folder), set())`:
the recorded hash list of a bucket, empty if the bucket is new. -/
def hashesGet (hs : List (String × List (Option String))) (b : String) :
    List (Option String) :=
  match hs with
  | [] => []
  | (k, v) :: t => if k = b then v else hashesGet t b

/-- `hashes_in_destination.setdefault(str(target_folder), set()).add(h)`. -/
def hashesAdd (hs : List (String × List (Option String))) (b : String)
    (x : Option String) : List (String × List (Option String)) :=
  match hs with
  | [] => [(b, [x])]
  | (k, v) :: t => if k = b then (k, x :: v) :: t else (k, v) :: hashesAdd t b x

/-- Observable per-file filesystem events of one `sort_photos` iteration. -/
inductive Event where
  | skippedInDest
  | deletedNonMedia
  | deletedDuplicate
  | removedOriginal
  | commit (bucket : String) (fname : String) (srcHash : Option String) (conv : Bool)
  | relocatedToErrors (fname : String)
deriving DecidableEq

/-- How one per-file iteration ended: `normal` (the `for` loop continues),
`aborted` (an exception escaped the per-file handler, terminating
`sort_photos`), or `fuelOut` (the model's loop bound was exhausted — a real
run would still be iterating a conflict loop). -/
inductive PStatus where
  | normal
  | aborted
  | fuelOut
deriving DecidableEq

/-- Result of one per-file iteration: updated counters and hash sets, the
filesystem events it performed, and how it ended. -/
structure ProcOut where
  st : RunState
  evs : List Event
  status : PStatus

/-- Result of the `while dest_path_final.exists():` conflict loops
(lines 316-343 and 408-436). -/
inductive ResolveRes where
  | final (n : String)
  | dup (n : String)
  | out
deriving DecidableEq

/-- The conflict-resolution loop shared by the HEIC branch (lines 316-343),
the generic move (lines 408-436) and — with `srcHash = none`, which can never
match — the name-only loop of the per-file handler (lines 485-488).
`disk n` is the existence/hash observation for candidate name `n`, `mk k` the
renamed candidate built from the per-item counter `k`; the loop enters with
the desired name and `counter = 1`.  An existing file whose hash matches the
truthy source hash ends the loop as a duplicate; otherwise the candidate is
renamed and the existence check repeats. -/
def resolveLoop (disk : String → Option (Option String)) (srcHash : Option String)
    (mk : Nat → String) : Nat → String → Nat → ResolveRes
  | 0, _, _ => .out
  | fuel + 1, cand, k =>
      match disk cand with
      | none => .final cand
      | some exh =>
          if truthyStr exh = true ∧ srcHash = exh then .dup cand
          else resolveLoop disk srcHash mk fuel (mk k) (k + 1)

/-- Renamed candidate `f"{source_path.stem}_{counter}{source_path.suffix}"`
(lines 429-431 and 486). -/
def genName (f : FileEnv) (k : Nat) : String :=
  f.stem ++ "_" ++ Nat.repr k ++ f.suffix

/-- Renamed candidate `f"{source_path.stem}_{counter}.jpg"` for the converted
HEIC output (line 338). -/
def heicName (f : FileEnv) (k : Nat) : String :=
  f.stem ++ "_" ++ Nat.repr k ++ ".jpg"

/-- The duplicate-deletion step shared by lines 299-307, 326-335 and 417-426:
`os.remove(source_path)`; on success count `duplicate_deleted`, on `OSError`
count an error; either way the destination is not written and processing of
this file stops. -/
def dupDelete (f : FileEnv) (st : RunState) : ProcOut :=
  if f.removeSourceOk then
    ⟨{ st with dupDeleted := st.dupDeleted + 1 }, [.deletedDuplicate], .normal⟩
  else
    ⟨{ st with errors := st.errors + 1 }, [], .normal⟩

/-- The per-file exception handler (lines 468-492).  `FileNotFoundError` is
counted as skipped; `PermissionError` is counted as an error and the file is
left where it is; any other exception is counted as an error and, if the
source still exists, the file is moved into `errors/` under a name resolved by
the name-only conflict loop — that `shutil.move` itself is not guarded, so its
failure escapes the handler and aborts the run. -/
def handleExc (f : FileEnv) (st : RunState) (e : MoveRes) : ProcOut :=
  match e with
  | .ok => ⟨st, [], .normal⟩
  | .notFound => ⟨{ st with skipped := st.skipped + 1 }, [], .normal⟩
  | .permission => ⟨{ st with errors := st.errors + 1 }, [], .normal⟩
  | .failed =>
      let st1 := { st with errors := st.errors + 1 }
      if f.srcExistsAtHandler then
        match resolveLoop (f.disk ERROR_DIR) none (genName f) f.fuel
            (f.stem ++ f.suffix) 1 with
        | .out => ⟨st1, [], .fuelOut⟩
        | .dup _ => ⟨st1, [], .normal⟩
        | .final n =>
            if f.handlerMoveOk then ⟨st1, [.relocatedToErrors n], .normal⟩
            else ⟨st1, [], .aborted⟩
      else ⟨st1, [], .normal⟩

/-- Lines 377-382: after a successful HEIC conversion, bump `moved_count`
unless the bucket is under `no_date` (already counted) or is the errors
bucket. -/
def bumpConvCounters (st : RunState) (target : String) : RunState :=
  if pyStarts NO_DATE_DIR target then st
  else if target ≠ ERROR_DIR then { st with moved := st.moved + 1 }
  else st

/-- Lines 447-459: after a successful generic move, bump
`video_moved_count`/`moved_count` by media type unless the bucket is under
`no_date` or is the errors bucket. -/
def bumpMoveCounters (st : RunState) (mt : MType) (target : String) : RunState :=
  if mt = .video then
    if pyStarts NO_DATE_DIR target then st
    else if target ≠ ERROR_DIR then { st with videoMoved := st.videoMoved + 1 }
    else st
  else if mt = .image then
    if pyStarts NO_DATE_DIR target then st
    else if target ≠ ERROR_DIR then { st with moved := st.moved + 1 }
    else st
  else st

lemma bumpConvCounters_hashes (st : RunState) (target : String) :
    (bumpConvCounters st target).hashes = st.hashes := by
  unfold bumpConvCounters
  split
  · rfl
  · split <;> rfl

lemma bumpMoveCounters_hashes (st : RunState) (mt : MType) (target : String) :
    (bumpMoveCounters st mt target).hashes = st.hashes := by
  unfold bumpMoveCounters
  split
  · split
    · rfl
    · split <;> rfl
  · split
    · split
      · rfl
      · split <;> rfl
    · rfl

/-- The HEIC conversion branch (lines 310-403): resolve the output name for
`stem.jpg` against the disk; a hash match deletes the source HEIC as a
duplicate; otherwise convert.  On success: count the conversion, best-effort
delete the original, record the original's hash in the bucket's set
(unconditionally, line 373), and bump `moved_count` unless the bucket is under
`no_date` or is the errors bucket.  On conversion failure: count an error and
try to move the original, under its unchanged name, into `errors/`
(lines 389-402; a failure of that move is caught and only logged). -/
def heicPhase (f : FileEnv) (st : RunState) (target : String) : ProcOut :=
  match resolveLoop (f.disk target) f.hash (heicName f) f.fuel
      (f.stem ++ ".jpg") 1 with
  | .dup _ => dupDelete f st
  | .out => ⟨st, [], .fuelOut⟩
  | .final n =>
      if f.convertOk then
        let st1 := { st with heicConverted := st.heicConverted + 1 }
        let st2 := { st1 with hashes := hashesAdd st1.hashes target f.hash }
        ⟨bumpConvCounters st2 target,
         .commit target n f.hash true ::
           (if f.removeAfterConvertOk then [.removedOriginal] else []),
         .normal⟩
      else
        let st1 := { st with errors := st.errors + 1 }
        if f.heicErrorMoveOk then
          ⟨st1, [.relocatedToErrors (f.stem ++ f.suffix)], .normal⟩
        else ⟨st1, [], .normal⟩

/-- The generic move (lines 405-466): resolve the destination name against
the disk; a hash match deletes the source as a duplicate; otherwise
`shutil.move`.  On success: bump `video_moved_count`/`moved_count` unless the
bucket is under `no_date` or is the errors bucket, and record the source hash
when it is truthy (line 463).  An exception from the move goes to the per-file
handler. -/
def movePhase (f : FileEnv) (st : RunState) (mt : MType) (target : String) :
    ProcOut :=
  match resolveLoop (f.disk target) f.hash (genName f) f.fuel
      (f.stem ++ f.suffix) 1 with
  | .dup _ => dupDelete f st
  | .out => ⟨st, [], .fuelOut⟩
  | .final n =>
      match f.moveRes with
      | .ok =>
          let st1 := bumpMoveCounters st mt target
          let st2 :=
            if truthyStr f.hash then
              { st1 with hashes := hashesAdd st1.hashes target f.hash }
            else st1
          ⟨st2, [.commit target n f.hash false], .normal⟩
      | e => handleExc f st e

/-- Line 310: files of image type with a HEIC/HEIF extension take the
conversion branch, everything else the generic move. -/
def commitPhase (f : FileEnv) (st : RunState) (mt : MType) (target : String) :
    ProcOut :=
  if mt = .image ∧ pyLower f.suffix ∈ HEIC_EXTENSIONS then heicPhase f st target
  else movePhase f st mt target

/-- Lines 276-310 up to the branch on HEIC: create the bucket, hash the
source; a hash failure retargets the file to `errors/` and counts an error
(lines 282-289); otherwise an in-run duplicate (hash already recorded for this
bucket) deletes the source (lines 291-307).  Files that survive proceed to the
HEIC branch or the generic move. -/
def afterTarget (f : FileEnv) (st : RunState) (mt : MType) (target0 : String) :
    ProcOut :=
  match f.hash with
  | none => commitPhase f { st with errors := st.errors + 1 } mt ERROR_DIR
  | some h =>
      if some h ∈ hashesGet st.hashes target0 then dupDelete f st
      else commitPhase f st mt target0

/-- The date-resolution outcome for a media file (lines 254-273): the
`"error"` sentinel, a truthy year string, or no date (in which case the size
tier is computed). -/
inductive DateRes where
  | errorDate
  | year (y : String)
  | noDate (tier : String)
deriving DecidableEq

/-- Lines 255-269 applied to the result of `get_date_taken` (videos pass
`None`): `"error"` routes to the errors bucket, a truthy year to its year
bucket, anything else to a `no_date` size tier. -/
def dateResolve (y : Option String) (statSize : Option Nat) : DateRes :=
  match y with
  | some s =>
      if s = "error" then .errorDate
      else if s ≠ "" then .year s
      else .noDate (get_file_size_category statSize)
  | none => .noDate (get_file_size_category statSize)

/-- The bucket a `DateRes` routes to (lines 256, 262, 269). -/
def targetOfDate : DateRes → String
  | .errorDate => ERROR_DIR
  | .year y => DEST_DIR ++ "/" ++ y
  | .noDate t => NO_DATE_DIR ++ "/" ++ t

/-- The classification stage (lines 209-273): skip files already inside the
destination tree; classify by lower-cased extension; images run
`get_date_taken`, videos are unconditionally dateless, archives go to the
archives bucket, anything else is deleted as non-media. -/
inductive ClassRes where
  | skippedDest
  | nonMedia
  | toArchive
  | media (mt : MType) (d : DateRes)
deriving DecidableEq

/-- Lines 209-273 as a function of the per-file environment. -/
def classStage (f : FileEnv) : ClassRes :=
  if f.inDest then .skippedDest
  else
    let ext := pyLower f.suffix
    if ext ∈ IMAGE_EXTENSIONS then
      .media .image (dateResolve (get_date_taken ext f.decode) f.statSize)
    else if ext ∈ VIDEO_EXTENSIONS then
      .media .video (dateResolve none f.statSize)
    else if ext ∈ ARCHIVE_EXTENSIONS then .toArchive
    else .nonMedia

/-- The bucket a file is resolved to by the classification/date stage, before
the hash-failure retarget: `none` for files that never reach bucket
resolution (skipped, or deleted as non-media). -/
def resolvedTarget (f : FileEnv) : Option String :=
  match classStage f with
  | .skippedDest => none
  | .nonMedia => none
  | .toArchive => some ARCHIVES_DIR
  | .media _ d => some (targetOfDate d)

/-- One full iteration of the `for filename in files:` body (lines 201-492)
for one discovered file. -/
def processFile (f : FileEnv) (st : RunState) : ProcOut :=
  match classStage f with
  | .skippedDest =>
      ⟨{ st with skipped := st.skipped + 1 }, [.skippedInDest], .normal⟩
  | .nonMedia =>
      if f.removeSourceOk then
        ⟨{ st with deletedNonMedia := st.deletedNonMedia + 1 },
         [.deletedNonMedia], .normal⟩
      else ⟨{ st with errors := st.errors + 1 }, [], .normal⟩
  | .toArchive =>
      afterTarget f { st with archiveMoved := st.archiveMoved + 1 } .archiveT
        ARCHIVES_DIR
  | .media mt d =>
      let st1 :=
        match d with
        | .errorDate => { st with errors := st.errors + 1 }
        | .year _ => st
        | .noDate _ => { st with noDate := st.noDate + 1 }
      afterTarget f st1 mt (targetOfDate d)

/-- The walk over all discovered files (lines 199-492): process each file in
order; an exception escaping a per-file handler aborts the walk, as does
exhaustion of the model's loop fuel. -/
def runFiles : List FileEnv → RunState → RunState × List Event × PStatus
  | [], st => (st, [], .normal)
  | f :: fs, st =>
      let o := processFile f st
      match o.status with
      | .normal =>
          let r := runFiles fs o.st
          (r.1, o.evs ++ r.2.1, r.2.2)
      | s => (o.st, o.evs, s)

/-- The sum of all run counters: total number of counted outcomes. -/
def totalCount (st : RunState) : Nat :=
  st.moved + st.videoMoved + st.heicConverted + st.noDate + st.archiveMoved +
    st.deletedNonMedia + st.errors + st.skipped + st.dupDeleted

/-- Does this event commit a destination entry for bucket `b` with source
hash `h`? -/
def isCommitFor (b : String) (h : String) : Event → Bool
  | .commit b2 _ sh _ => b2 == b && sh == some h
  | _ => false

/-- Number of destination entries committed for bucket `b` with source hash
`h` in an event list. -/
def commitsOf (evs : List Event) (b : String) (h : String) : Nat :=
  evs.countP (isCommitFor b h)

/-- The dedup invariant carried through one per-file step, relative to the
hash sets `hs0` recorded before the step: the step commits at most one
destination entry per (bucket, source-hash) pair; a committed pair was not
recorded before the step and is recorded after it; and recorded pairs are
never dropped. -/
def PhaseInv (hs0 : List (String × List (Option String))) (o : ProcOut) : Prop :=
  (∀ b h, commitsOf o.evs b h ≤ 1) ∧
  (∀ b h, 1 ≤ commitsOf o.evs b h →
      some h ∉ hashesGet hs0 b ∧ some h ∈ hashesGet o.st.hashes b) ∧
  (∀ b x, x ∈ hashesGet hs0 b → x ∈ hashesGet o.st.hashes b)

/-- A baseline per-file environment for concrete evaluations: a JPEG named
`img.jpg` outside the destination tree, readable but with no EXIF data, an
unreadable byte size, source hash `"ab"`, an empty destination disk, one unit
of loop fuel, and every filesystem call succeeding. -/
def baseEnv : FileEnv :=
  { stem := "img", suffix := ".jpg", inDest := false,
    decode := .ok none, statSize := none, hash := some "ab",
    disk := fun _ _ => none, fuel := 1,
    removeSourceOk := true, convertOk := true, removeAfterConvertOk := true,
    heicErrorMoveOk := true, srcExistsAtHandler := true, handlerMoveOk := true,
    moveRes := .ok }

/-- `baseEnv` whose decoder run raises `UnidentifiedImageError` after the
handle was acquired (a corrupt file with an image extension). -/
def unidEnv : FileEnv := { baseEnv with decode := .raised true .unidExc }

/-- `baseEnv` whose generic `shutil.move` raises `PermissionError`. -/
def permEnv : FileEnv := { baseEnv with moveRes := .permission }

/-- A HEIC file `pic.heic` whose conversion fails while `errors/pic.heic`
already exists on disk with different content. -/
def heicFailEnv : FileEnv := { baseEnv with
  stem := "pic"
  suffix := ".heic"
  convertOk := false
  disk := fun b n =>
    if b = ERROR_DIR ∧ n = "pic.heic" then some (some "zz") else none }

/-- `baseEnv` facing an existing destination file `img.jpg` with different
content (hash `"zz"`), with enough fuel to rename once. -/
def conflictEnv : FileEnv := { baseEnv with
  fuel := 2
  disk := fun _ n => if n = "img.jpg" then some (some "zz") else none }

/-- A run state in which hash `"ab"` is already recorded for the
`no_date/unknown_size` bucket. -/
def dupStateW : RunState :=
  { initState with hashes := [(NO_DATE_DIR ++ "/unknown_size", [some "ab"])] }

/-- A destination-disk observation where `a.jpg` exists but its hash cannot
be computed. -/
def unhashDisk : String → Option (Option String) :=
  fun n => if n = "a.jpg" then some none else none

/-- A destination-disk observation where `d.jpg` exists with hash `"zz"`. -/
def dupDisk : String → Option (Option String) :=
  fun _ => some (some "zz")

lemma hashesGet_add_self (hs : List (String × List (Option String))) (b : String)
    (x : Option String) : hashesGet (hashesAdd hs b x) b = x :: hashesGet hs b := by
  induction hs with
  | nil => simp [hashesAdd, hashesGet]
  | cons p t ih =>
      obtain ⟨k, v⟩ := p
      by_cases hk : k = b
      · simp [hashesAdd, hashesGet, hk]
      · simp [hashesAdd, hashesGet, hk, ih]

lemma hashesGet_add_ne (hs : List (String × List (Option String))) (b b2 : String)
    (x : Option String) (hne : b2 ≠ b) :
    hashesGet (hashesAdd hs b x) b2 = hashesGet hs b2 := by
  induction hs with
  | nil => simp [hashesAdd, hashesGet, Ne.symm hne]
  | cons p t ih =>
      obtain ⟨k, v⟩ := p
      by_cases hk : k = b
      · subst hk
        simp [hashesAdd, hashesGet, Ne.symm hne]
      · by_cases hk2 : k = b2
        · subst hk2
          simp [hashesAdd, hashesGet, hk]
        · simp [hashesAdd, hashesGet, hk, hk2, ih]

lemma mem_hashesGet_add (hs : List (String × List (Option String))) (b b2 : String)
    (x y : Option String) (hy : y ∈ hashesGet hs b2) :
    y ∈ hashesGet (hashesAdd hs b x) b2 := by
  by_cases hb : b2 = b
  · subst hb
    rw [hashesGet_add_self]
    exact List.mem_cons_of_mem _ hy
  · rwa [hashesGet_add_ne _ _ _ _ hb]

lemma mem_hashesGet_add_self (hs : List (String × List (Option String)))
    (b : String) (x : Option String) : x ∈ hashesGet (hashesAdd hs b x) b := by
  rw [hashesGet_add_self]
  exact List.mem_cons_self _ _

lemma commitsOf_nil (b h : String) : commitsOf [] b h = 0 := rfl

lemma commitsOf_append (a c : List Event) (b h : String) :
    commitsOf (a ++ c) b h = commitsOf a b h + commitsOf c b h :=
  List.countP_append _ _ _

lemma commitsOf_cons (e : Event) (evs : List Event) (b h : String) :
    commitsOf (e :: evs) b h =
      commitsOf evs b h + (if isCommitFor b h e then 1 else 0) :=
  List.countP_cons _ _ _

lemma commitsOf_commit_cons (b2 n : String) (sh : Option String) (c : Bool)
    (evs : List Event) (b h : String) :
    commitsOf (.commit b2 n sh c :: evs) b h =
      commitsOf evs b h + (if b2 = b ∧ sh = some h then 1 else 0) := by
  rw [commitsOf_cons]
  congr 1
  simp [isCommitFor]

lemma resolveLoop_final_spec (disk : String → Option (Option String))
    (srcHash : Option String) (mk : Nat → String) :
    ∀ fuel cand k n, resolveLoop disk srcHash mk fuel cand k = .final n →
      disk n = none ∧ (n = cand ∨ ∃ j, k ≤ j ∧ n = mk j) := by
  intro fuel
  induction fuel with
  | zero => intro cand k n h; simp [resolveLoop] at h
  | succ fuel ih =>
      intro cand k n h
      cases hd : disk cand with
      | none =>
          simp only [resolveLoop, hd, ResolveRes.final.injEq] at h
          subst h
          exact ⟨hd, Or.inl rfl⟩
      | some exh =>
          simp only [resolveLoop, hd] at h
          split at h
          · cases h
          · obtain ⟨h1, h2⟩ := ih (mk k) (k + 1) n h
            refine ⟨h1, Or.inr ?_⟩
            rcases h2 with h2 | ⟨j, hj, hn⟩
            · exact ⟨k, Nat.le_refl _, h2⟩
            · exact ⟨j, Nat.le_of_succ_le hj, hn⟩

lemma resolveLoop_dup_spec (disk : String → Option (Option String))
    (srcHash : Option String) (mk : Nat → String) :
    ∀ fuel cand k n, resolveLoop disk srcHash mk fuel cand k = .dup n →
      ∃ h, disk n = some (some h) ∧ h ≠ "" ∧ srcHash = some h := by
  intro fuel
  induction fuel with
  | zero => intro cand k n h; simp [resolveLoop] at h
  | succ fuel ih =>
      intro cand k n h
      cases hd : disk cand with
      | none => simp [resolveLoop, hd] at h
      | some exh =>
          simp only [resolveLoop, hd] at h
          split at h
          case isTrue hc =>
            cases h
            obtain ⟨ht, hs⟩ := hc
            match exh, ht with
            | some s, ht =>
                refine ⟨s, hd, ?_, hs⟩
                simpa [truthyStr] using ht
          case isFalse hc => exact ih (mk k) (k + 1) n h

lemma resolveLoop_step (disk : String → Option (Option String))
    (srcHash : Option String) (mk : Nat → String) (fuel : Nat) (cand : String)
    (k : Nat) (eh : Option String) (hd : disk cand = some eh)
    (hm : ¬(truthyStr eh = true ∧ srcHash = eh)) :
    resolveLoop disk srcHash mk (fuel + 1) cand k =
      resolveLoop disk srcHash mk fuel (mk k) (k + 1) := by
  simp only [resolveLoop, hd]
  rw [if_neg hm]

lemma phaseInv_of_no_commit (hs0 : List (String × List (Option String)))
    (o : ProcOut) (h0 : ∀ b h, commitsOf o.evs b h = 0)
    (hh : o.st.hashes = hs0) : PhaseInv hs0 o := by
  refine ⟨fun b h => by simp [h0], fun b h hc => by simp [h0] at hc,
    fun b x hx => by rw [hh]; exact hx⟩

lemma dupDelete_inv (f : FileEnv) (st : RunState) :
    PhaseInv st.hashes (dupDelete f st) := by
  apply phaseInv_of_no_commit
  · intro b h
    unfold dupDelete
    split <;> simp [commitsOf, isCommitFor, List.countP, List.countP.go]
  · unfold dupDelete
    split <;> rfl

lemma handleExc_inv (f : FileEnv) (st : RunState) (e : MoveRes) :
    PhaseInv st.hashes (handleExc f st e) := by
  apply phaseInv_of_no_commit
  · intro b h
    unfold handleExc
    cases e <;> dsimp only <;> repeat' split
    all_goals simp [commitsOf, isCommitFor, List.countP, List.countP.go]
  · unfold handleExc
    cases e <;> dsimp only <;> repeat' split
    all_goals rfl

lemma heicPhase_inv (f : FileEnv) (st : RunState) (target : String)
    (hch : ∀ h, f.hash = some h → some h ∉ hashesGet st.hashes target) :
    PhaseInv st.hashes (heicPhase f st target) := by
  unfold heicPhase
  cases hres : resolveLoop (f.disk target) f.hash (heicName f) f.fuel
      (f.stem ++ ".jpg") 1 with
  | dup n => exact dupDelete_inv f st
  | out => exact phaseInv_of_no_commit _ _ (fun b h => rfl) rfl
  | final n =>
      dsimp only
      by_cases hcv : f.convertOk = true
      · rw [if_pos hcv]
        have hevs : ∀ b h,
            commitsOf (Event.commit target n f.hash true ::
              (if f.removeAfterConvertOk = true then [Event.removedOriginal]
               else [])) b h =
            (if target = b ∧ f.hash = some h then 1 else 0) := by
          intro b h
          rw [commitsOf_commit_cons]
          split <;> simp [commitsOf, isCommitFor, List.countP, List.countP.go]
        refine ⟨?_, ?_, ?_⟩
        · intro b h
          rw [hevs]
          split <;> simp
        · intro b h hc
          rw [hevs] at hc
          by_cases hbh : target = b ∧ f.hash = some h
          · obtain ⟨hb, hh⟩ := hbh
            subst hb
            refine ⟨hch h hh, ?_⟩
            show some h ∈ hashesGet (bumpConvCounters _ _).hashes target
            rw [bumpConvCounters_hashes, hh]
            exact mem_hashesGet_add_self _ _ _
          · rw [if_neg hbh] at hc
            omega
        · intro b x hx
          show x ∈ hashesGet (bumpConvCounters _ _).hashes b
          rw [bumpConvCounters_hashes]
          exact mem_hashesGet_add _ _ _ _ _ hx
      · rw [if_neg hcv]
        apply phaseInv_of_no_commit
        · intro b h
          split <;> simp [commitsOf, isCommitFor, List.countP, List.countP.go]
        · split <;> rfl

lemma movePhase_inv (f : FileEnv) (st : RunState) (mt : MType) (target : String)
    (hne : f.hash ≠ some "")
    (hch : ∀ h, f.hash = some h → some h ∉ hashesGet st.hashes target) :
    PhaseInv st.hashes (movePhase f st mt target) := by
  unfold movePhase
  cases hres : resolveLoop (f.disk target) f.hash (genName f) f.fuel
      (f.stem ++ f.suffix) 1 with
  | dup n => exact dupDelete_inv f st
  | out => exact phaseInv_of_no_commit _ _ (fun b h => rfl) rfl
  | final n =>
      dsimp only
      cases hmv : f.moveRes with
      | notFound => exact handleExc_inv f st .notFound
      | permission => exact handleExc_inv f st .permission
      | failed => exact handleExc_inv f st .failed
      | ok =>
          dsimp only
          have hevs : ∀ b h,
              commitsOf [Event.commit target n f.hash false] b h =
              (if target = b ∧ f.hash = some h then 1 else 0) := by
            intro b h
            rw [commitsOf_commit_cons]
            simp [commitsOf_nil]
          refine ⟨?_, ?_, ?_⟩
          · intro b h
            rw [hevs]
            split <;> simp
          · intro b h hc
            rw [hevs] at hc
            by_cases hbh : target = b ∧ f.hash = some h
            · obtain ⟨hb, hh⟩ := hbh
              subst hb
              refine ⟨hch h hh, ?_⟩
              have htr : truthyStr f.hash = true := by
                rw [hh]
                simp only [truthyStr, ne_eq, decide_eq_true_eq]
                intro hf
                exact hne (by rw [hh, hf])
              show some h ∈ hashesGet
                (if truthyStr f.hash = true then
                  { bumpMoveCounters st mt target with
                    hashes := hashesAdd (bumpMoveCounters st mt target).hashes
                      target f.hash }
                 else bumpMoveCounters st mt target).hashes target
              rw [if_pos htr]
              show some h ∈
                hashesGet (hashesAdd (bumpMoveCounters st mt target).hashes
                  target f.hash) target
              rw [bumpMoveCounters_hashes, hh]
              exact mem_hashesGet_add_self _ _ _
            · rw [if_neg hbh] at hc
              omega
          · intro b x hx
            show x ∈ hashesGet
              (if truthyStr f.hash = true then
                { bumpMoveCounters st mt target with
                  hashes := hashesAdd (bumpMoveCounters st mt target).hashes
                    target f.hash }
               else bumpMoveCounters st mt target).hashes b
            split
            · show x ∈
                hashesGet (hashesAdd (bumpMoveCounters st mt target).hashes
                  target f.hash) b
              rw [bumpMoveCounters_hashes]
              exact mem_hashesGet_add _ _ _ _ _ hx
            · rw [bumpMoveCounters_hashes]
              exact hx

lemma commitPhase_inv (f : FileEnv) (st : RunState) (mt : MType)
    (target : String) (hne : f.hash ≠ some "")
    (hch : ∀ h, f.hash = some h → some h ∉ hashesGet st.hashes target) :
    PhaseInv st.hashes (commitPhase f st mt target) := by
  unfold commitPhase
  split
  · exact heicPhase_inv f st target hch
  · exact movePhase_inv f st mt target hne hch

lemma afterTarget_inv (f : FileEnv) (st : RunState) (mt : MType)
    (target0 : String) (hne : f.hash ≠ some "") :
    PhaseInv st.hashes (afterTarget f st mt target0) := by
  unfold afterTarget
  cases hh : f.hash with
  | none =>
      exact commitPhase_inv f { st with errors := st.errors + 1 } mt ERROR_DIR
        hne (fun h hfh => by rw [hh] at hfh; cases hfh)
  | some h0 =>
      dsimp only
      by_cases hmem : some h0 ∈ hashesGet st.hashes target0
      · rw [if_pos hmem]
        exact dupDelete_inv f st
      · rw [if_neg hmem]
        refine commitPhase_inv f st mt target0 hne (fun h hfh => ?_)
        rw [hh] at hfh
        obtain rfl : h0 = h := Option.some.inj hfh
        exact hmem

lemma processFile_inv (f : FileEnv) (st : RunState) (hne : f.hash ≠ some "") :
    PhaseInv st.hashes (processFile f st) := by
  unfold processFile
  cases hcl : classStage f with
  | skippedDest => exact phaseInv_of_no_commit _ _ (fun b h => rfl) rfl
  | nonMedia =>
      dsimp only
      split
      · exact phaseInv_of_no_commit _ _ (fun b h => rfl) rfl
      · exact phaseInv_of_no_commit _ _ (fun b h => rfl) rfl
  | toArchive => exact afterTarget_inv f _ _ _ hne
  | media mt d =>
      cases d with
      | errorDate => exact afterTarget_inv f _ _ _ hne
      | year y => exact afterTarget_inv f _ _ _ hne
      | noDate t => exact afterTarget_inv f _ _ _ hne

lemma runFiles_cons_normal (f : FileEnv) (fs : List FileEnv) (st : RunState)
    (h : (processFile f st).status = .normal) :
    runFiles (f :: fs) st =
      ((runFiles fs (processFile f st).st).1,
       (processFile f st).evs ++ (runFiles fs (processFile f st).st).2.1,
       (runFiles fs (processFile f st).st).2.2) := by
  simp only [runFiles]
  rw [h]

lemma runFiles_cons_stop (f : FileEnv) (fs : List FileEnv) (st : RunState)
    (s : PStatus) (h : (processFile f st).status = s) (hs : s ≠ .normal) :
    runFiles (f :: fs) st = ((processFile f st).st, (processFile f st).evs, s) := by
  simp only [runFiles]
  rw [h]
  cases s with
  | normal => exact absurd rfl hs
  | aborted => rfl
  | fuelOut => rfl

lemma runFiles_inv (files : List FileEnv) :
    ∀ st : RunState, (∀ f ∈ files, f.hash ≠ some "") →
      (∀ b h, commitsOf (runFiles files st).2.1 b h ≤ 1) ∧
      (∀ b h, 1 ≤ commitsOf (runFiles files st).2.1 b h →
          some h ∉ hashesGet st.hashes b ∧
          some h ∈ hashesGet (runFiles files st).1.hashes b) ∧
      (∀ b x, x ∈ hashesGet st.hashes b →
          x ∈ hashesGet (runFiles files st).1.hashes b) := by
  induction files with
  | nil =>
      intro st _
      exact ⟨fun b h => by simp [runFiles, commitsOf_nil],
        fun b h hc => by simp [runFiles, commitsOf_nil] at hc,
        fun b x hx => hx⟩
  | cons f fs ih =>
      intro st hne
      have hf : f.hash ≠ some "" := hne f (List.mem_cons_self f fs)
      have hfs : ∀ g ∈ fs, g.hash ≠ some "" :=
        fun g hg => hne g (List.mem_cons_of_mem f hg)
      obtain ⟨P1, P2, P3⟩ := processFile_inv f st hf
      cases hstat : (processFile f st).status with
      | normal =>
          rw [runFiles_cons_normal f fs st hstat]
          obtain ⟨Q1, Q2, Q3⟩ := ih (processFile f st).st hfs
          refine ⟨?_, ?_, ?_⟩
          · intro b h
            dsimp only
            rw [commitsOf_append]
            by_cases ha : 1 ≤ commitsOf (processFile f st).evs b h
            · by_cases hb :
                  1 ≤ commitsOf (runFiles fs (processFile f st).st).2.1 b h
              · exfalso
                exact (Q2 b h hb).1 (P2 b h ha).2
              · have := P1 b h
                omega
            · have := Q1 b h
              omega
          · intro b h hc
            dsimp only at hc ⊢
            rw [commitsOf_append] at hc
            by_cases ha : 1 ≤ commitsOf (processFile f st).evs b h
            · obtain ⟨hnotin, hin⟩ := P2 b h ha
              exact ⟨hnotin, Q3 b _ hin⟩
            · have hb : 1 ≤ commitsOf (runFiles fs (processFile f st).st).2.1 b h := by
                omega
              obtain ⟨hnotin2, hin2⟩ := Q2 b h hb
              exact ⟨fun hmem => hnotin2 (P3 b _ hmem), hin2⟩
          · intro b x hx
            exact Q3 b x (P3 b x hx)
      | aborted =>
          rw [runFiles_cons_stop f fs st .aborted hstat (by simp)]
          exact ⟨P1, P2, P3⟩
      | fuelOut =>
          rw [runFiles_cons_stop f fs st .fuelOut hstat (by simp)]
          exact ⟨P1, P2, P3⟩

lemma totalCount_mono_bumpConv (st : RunState) (target : String) :
    totalCount st ≤ totalCount (bumpConvCounters st target) := by
  unfold bumpConvCounters
  repeat' split
  all_goals (simp only [totalCount]; (try dsimp only); omega)

lemma totalCount_mono_bumpMove (st : RunState) (mt : MType) (target : String) :
    totalCount st ≤ totalCount (bumpMoveCounters st mt target) := by
  unfold bumpMoveCounters
  repeat' split
  all_goals (simp only [totalCount]; (try dsimp only); omega)

lemma dupDelete_delta (f : FileEnv) (st : RunState) :
    totalCount (dupDelete f st).st = totalCount st + 1 := by
  unfold dupDelete
  split
  all_goals (simp only [totalCount]; (try dsimp only); omega)

lemma handleExc_mono (f : FileEnv) (st : RunState) (e : MoveRes) :
    totalCount st ≤ totalCount (handleExc f st e).st := by
  unfold handleExc
  cases e <;> dsimp only <;> repeat' split
  all_goals (simp only [totalCount]; (try dsimp only); omega)

lemma handleExc_delta (f : FileEnv) (st : RunState) (e : MoveRes)
    (he : e ≠ .ok) : totalCount st + 1 ≤ totalCount (handleExc f st e).st := by
  unfold handleExc
  cases e with
  | ok => exact absurd rfl he
  | notFound => simp only [totalCount]; (try dsimp only); omega
  | permission => simp only [totalCount]; (try dsimp only); omega
  | failed =>
      dsimp only
      repeat' split
      all_goals (simp only [totalCount]; (try dsimp only); omega)

lemma heicPhase_mono (f : FileEnv) (st : RunState) (target : String) :
    totalCount st ≤ totalCount (heicPhase f st target).st := by
  unfold heicPhase
  cases hres : resolveLoop (f.disk target) f.hash (heicName f) f.fuel
      (f.stem ++ ".jpg") 1 with
  | dup n => rw [dupDelete_delta]; omega
  | out => exact Nat.le_refl _
  | final n =>
      dsimp only
      split
      · refine Nat.le_trans ?_ (totalCount_mono_bumpConv _ _)
        simp only [totalCount]
        (try dsimp only)
        omega
      · split
        all_goals (simp only [totalCount]; (try dsimp only); omega)

lemma movePhase_mono (f : FileEnv) (st : RunState) (mt : MType)
    (target : String) : totalCount st ≤ totalCount (movePhase f st mt target).st := by
  unfold movePhase
  cases hres : resolveLoop (f.disk target) f.hash (genName f) f.fuel
      (f.stem ++ f.suffix) 1 with
  | dup n => rw [dupDelete_delta]; omega
  | out => exact Nat.le_refl _
  | final n =>
      dsimp only
      cases f.moveRes with
      | ok =>
          dsimp only
          split
          · refine Nat.le_trans (totalCount_mono_bumpMove st mt target) ?_
            simp only [totalCount]
            (try dsimp only)
            omega
          · exact totalCount_mono_bumpMove st mt target
      | notFound => exact handleExc_mono f st .notFound
      | permission => exact handleExc_mono f st .permission
      | failed => exact handleExc_mono f st .failed

lemma commitPhase_mono (f : FileEnv) (st : RunState) (mt : MType)
    (target : String) :
    totalCount st ≤ totalCount (commitPhase f st mt target).st := by
  unfold commitPhase
  split
  · exact heicPhase_mono f st target
  · exact movePhase_mono f st mt target

lemma afterTarget_mono (f : FileEnv) (st : RunState) (mt : MType)
    (target0 : String) :
    totalCount st ≤ totalCount (afterTarget f st mt target0).st := by
  unfold afterTarget
  cases hh : f.hash with
  | none =>
      refine Nat.le_trans ?_ (commitPhase_mono f { st with errors := st.errors + 1 } mt ERROR_DIR)
      simp only [totalCount]
      (try dsimp only)
      omega
  | some h0 =>
      dsimp only
      split
      · rw [dupDelete_delta]; omega
      · exact commitPhase_mono f st mt target0

lemma tagYear_len (v : Option ExifVal) (y : String) (h : tagYear v = some y) :
    y.data.length = 4 := by
  cases v with
  | none => simp [tagYear] at h
  | some val =>
      cases val with
      | nonStr t => simp [tagYear] at h
      | str s =>
          unfold tagYear at h
          dsimp only at h
          by_cases hc : s ≠ "" ∧ 10 ≤ s.data.length ∧
              s.data.get? 4 = some ':' ∧ s.data.get? 7 = some ':'
          · rw [if_pos hc] at h
            obtain ⟨-, hlen, -, -⟩ := hc
            have hlen2 : 10 ≤ s.data.length := hlen
            have hy : String.mk (s.data.take 4) = y := Option.some.inj h
            subst hy
            show (s.data.take 4).length = 4
            rw [List.length_take]
            omega
          · rw [if_neg hc] at h
            simp at h

lemma exifYear_len (exif : Option (Nat → Option ExifVal)) (y : String)
    (h : exifYear exif = some y) : y.data.length = 4 := by
  cases exif with
  | none => simp [exifYear] at h
  | some data =>
      simp only [exifYear] at h
      cases h1 : tagYear (data 36867) with
      | some y1 =>
          rw [h1] at h
          obtain rfl : y1 = y := Option.some.inj h
          exact tagYear_len _ _ h1
      | none =>
          rw [h1] at h
          exact tagYear_len _ _ h

lemma get_date_taken_len (ext : String) (d : DecodeRun) (y : String)
    (h : get_date_taken ext d = some y) (hy : y ≠ "error") :
    y.data.length = 4 := by
  unfold get_date_taken at h
  split at h
  · cases d with
    | ok exif => exact exifYear_len exif y h
    | raised a k =>
        cases k with
        | fnfExc => exact absurd (Option.some.inj h).symm hy
        | unidExc => simp at h
        | genExc => simp at h
  · simp at h

lemma year_bucket_props (y : String) (hlen : y.data.length = 4) :
    DEST_DIR ++ "/" ++ y ≠ ERROR_DIR ∧
      pyStarts NO_DATE_DIR (DEST_DIR ++ "/" ++ y) = false := by
  have hd : (DEST_DIR ++ "/" ++ y).data.length = 18 := by
    show (DEST_DIR.data ++ "/".data ++ y.data).length = 18
    simp only [List.length_append, hlen]
    decide
  constructor
  · intro heq
    have h2 : (DEST_DIR ++ "/" ++ y).data.length = ERROR_DIR.data.length := by
      rw [heq]
    rw [hd] at h2
    have : ERROR_DIR.data.length = 20 := by decide
    omega
  · by_contra hne
    have hp : pyStarts NO_DATE_DIR (DEST_DIR ++ "/" ++ y) = true := by
      cases hx : pyStarts NO_DATE_DIR (DEST_DIR ++ "/" ++ y)
      · exact absurd hx hne
      · rfl
    have hpre := List.isPrefixOf_iff_prefix.mp hp
    have hle := hpre.length_le
    rw [hd] at hle
    have : NO_DATE_DIR.data.length = 21 := by decide
    omega

lemma bumpMoveCounters_plus (st : RunState) (mt : MType) (target : String)
    (h1 : pyStarts NO_DATE_DIR target = false) (h2 : target ≠ ERROR_DIR)
    (hmt : mt = .image ∨ mt = .video) :
    totalCount (bumpMoveCounters st mt target) = totalCount st + 1 := by
  unfold bumpMoveCounters
  rcases hmt with rfl | rfl
  · rw [if_neg (show ¬(MType.image = MType.video) by simp), if_pos rfl,
      if_neg (show ¬(pyStarts NO_DATE_DIR target = true) by simp [h1]),
      if_pos h2]
    simp only [totalCount]; (try dsimp only); omega
  · rw [if_pos rfl,
      if_neg (show ¬(pyStarts NO_DATE_DIR target = true) by simp [h1]),
      if_pos h2]
    simp only [totalCount]; (try dsimp only); omega

lemma heicPhase_delta (f : FileEnv) (st : RunState) (target : String)
    (hfo : (heicPhase f st target).status ≠ .fuelOut) :
    totalCount st + 1 ≤ totalCount (heicPhase f st target).st := by
  unfold heicPhase
  cases hres : resolveLoop (f.disk target) f.hash (heicName f) f.fuel
      (f.stem ++ ".jpg") 1 with
  | dup n =>
      rw [dupDelete_delta]
  | out =>
      exact absurd (show (heicPhase f st target).status = .fuelOut by
        unfold heicPhase; rw [hres]) hfo
  | final n =>
      dsimp only
      split
      · refine Nat.le_trans ?_ (totalCount_mono_bumpConv _ _)
        simp only [totalCount]; (try dsimp only); omega
      · split
        all_goals (simp only [totalCount]; (try dsimp only); omega)

lemma movePhase_delta (f : FileEnv) (st : RunState) (mt : MType)
    (target : String) (hfo : (movePhase f st mt target).status ≠ .fuelOut)
    (h1 : pyStarts NO_DATE_DIR target = false) (h2 : target ≠ ERROR_DIR)
    (hmt : mt = .image ∨ mt = .video) :
    totalCount st + 1 ≤ totalCount (movePhase f st mt target).st := by
  unfold movePhase
  cases hres : resolveLoop (f.disk target) f.hash (genName f) f.fuel
      (f.stem ++ f.suffix) 1 with
  | dup n => rw [dupDelete_delta]
  | out =>
      exact absurd (show (movePhase f st mt target).status = .fuelOut by
        unfold movePhase; rw [hres]) hfo
  | final n =>
      dsimp only
      cases f.moveRes with
      | ok =>
          dsimp only
          have hplus := bumpMoveCounters_plus st mt target h1 h2 hmt
          split
          · simp only [totalCount] at hplus ⊢
            (try dsimp only)
            omega
          · rw [hplus]
      | notFound => exact handleExc_delta f st .notFound (by simp)
      | permission => exact handleExc_delta f st .permission (by simp)
      | failed => exact handleExc_delta f st .failed (by simp)

lemma commitPhase_delta (f : FileEnv) (st : RunState) (mt : MType)
    (target : String) (hfo : (commitPhase f st mt target).status ≠ .fuelOut)
    (h1 : pyStarts NO_DATE_DIR target = false) (h2 : target ≠ ERROR_DIR)
    (hmt : mt = .image ∨ mt = .video) :
    totalCount st + 1 ≤ totalCount (commitPhase f st mt target).st := by
  by_cases hc : mt = .image ∧ pyLower f.suffix ∈ HEIC_EXTENSIONS
  · have hh : commitPhase f st mt target = heicPhase f st target := by
      unfold commitPhase; rw [if_pos hc]
    rw [hh]
    rw [hh] at hfo
    exact heicPhase_delta f st target hfo
  · have hh : commitPhase f st mt target = movePhase f st mt target := by
      unfold commitPhase; rw [if_neg hc]
    rw [hh]
    rw [hh] at hfo
    exact movePhase_delta f st mt target hfo h1 h2 hmt

lemma afterTarget_delta (f : FileEnv) (st : RunState) (mt : MType)
    (target0 : String) (hfo : (afterTarget f st mt target0).status ≠ .fuelOut)
    (h1 : pyStarts NO_DATE_DIR target0 = false) (h2 : target0 ≠ ERROR_DIR)
    (hmt : mt = .image ∨ mt = .video) :
    totalCount st + 1 ≤ totalCount (afterTarget f st mt target0).st := by
  unfold afterTarget
  cases hh : f.hash with
  | none =>
      refine Nat.le_trans ?_
        (commitPhase_mono f { st with errors := st.errors + 1 } mt ERROR_DIR)
      simp only [totalCount]; (try dsimp only); omega
  | some h0 =>
      dsimp only
      by_cases hmem : some h0 ∈ hashesGet st.hashes target0
      · rw [if_pos hmem, dupDelete_delta]
      · rw [if_neg hmem]
        refine commitPhase_delta f st mt target0 ?_ h1 h2 hmt
        intro hx
        apply hfo
        unfold afterTarget
        rw [hh]
        dsimp only
        rw [if_neg hmem]
        exact hx

lemma classStage_media_year (f : FileEnv) (mt : MType) (y : String)
    (h : classStage f = .media mt (.year y)) :
    mt = .image ∧ get_date_taken (pyLower f.suffix) f.decode = some y ∧
      y ≠ "error" ∧ y ≠ "" := by
  unfold classStage at h
  split at h
  · simp at h
  · dsimp only at h
    split at h
    · injection h with h1 h2
      subst h1
      refine ⟨rfl, ?_⟩
      unfold dateResolve at h2
      cases hg : get_date_taken (pyLower f.suffix) f.decode with
      | none => rw [hg] at h2; simp at h2
      | some s =>
          rw [hg] at h2
          dsimp only at h2
          split at h2
          case isTrue => simp at h2
          case isFalse hs1 =>
            split at h2
            case isTrue hs2 =>
              injection h2 with h3
              subst h3
              exact ⟨rfl, hs1, hs2⟩
            case isFalse => simp at h2
    · split at h
      · injection h with h1 h2
        unfold dateResolve at h2
        simp at h2
      · split at h
        · simp at h
        · simp at h

lemma processFile_delta (f : FileEnv) (st : RunState)
    (hfo : (processFile f st).status ≠ .fuelOut) :
    totalCount st + 1 ≤ totalCount (processFile f st).st := by
  unfold processFile
  cases hcl : classStage f with
  | skippedDest => simp only [totalCount]; (try dsimp only); omega
  | nonMedia =>
      dsimp only
      split
      all_goals (simp only [totalCount]; (try dsimp only); omega)
  | toArchive =>
      refine Nat.le_trans ?_ (afterTarget_mono f _ .archiveT ARCHIVES_DIR)
      simp only [totalCount]; (try dsimp only); omega
  | media mt d =>
      cases d with
      | errorDate =>
          refine Nat.le_trans ?_ (afterTarget_mono f _ mt _)
          simp only [totalCount]; (try dsimp only); omega
      | noDate t =>
          refine Nat.le_trans ?_ (afterTarget_mono f _ mt _)
          simp only [totalCount]; (try dsimp only); omega
      | year y =>
          obtain ⟨hmt, hg, hyerr, hyne⟩ := classStage_media_year f mt y hcl
          have hlen : y.data.length = 4 := get_date_taken_len _ _ _ hg hyerr
          obtain ⟨hb2, hb1⟩ := year_bucket_props y hlen
          refine afterTarget_delta f st mt _ ?_ hb1 hb2 (Or.inl hmt)
          intro hx
          apply hfo
          unfold processFile
          rw [hcl]
          exact hx

lemma sizeMB_lt_iff (sz t : Nat) (q : ℚ) (hq : q * (1024 * 1024) = (t : ℚ)) :
    ((sz : ℚ) / (1024 * 1024) < q) ↔ sz < t := by
  rw [div_lt_iff₀ (by norm_num : (0 : ℚ) < 1024 * 1024), hq]
  exact_mod_cast Iff.rfl

lemma sizeCat_eq (sz : Nat) :
    get_file_size_category (some sz) =
      if sz < 524288 then "tiny_under_0.5MB"
      else if sz < 1048576 then "small_0.5-1MB"
      else if sz < 2097152 then "medium_1-2MB"
      else if sz < 5242880 then "large_2-5MB"
      else if sz < 10485760 then "xlarge_5-10MB"
      else "huge_over_10MB" := by
  unfold get_file_size_category
  simp only [sizeMB_lt_iff sz 524288 0.5 (by norm_num),
    sizeMB_lt_iff sz 1048576 1 (by norm_num),
    sizeMB_lt_iff sz 2097152 2 (by norm_num),
    sizeMB_lt_iff sz 5242880 5 (by norm_num),
    sizeMB_lt_iff sz 10485760 10 (by norm_num)]

lemma tagYear_iff (v : Option ExifVal) (y : String) :
    tagYear v = some y ↔
      ∃ s, v = some (.str s) ∧ 10 ≤ s.data.length ∧
        s.data.get? 4 = some ':' ∧ s.data.get? 7 = some ':' ∧
        y = String.mk (s.data.take 4) := by
  constructor
  · intro h
    cases v with
    | none => simp [tagYear] at h
    | some val =>
        cases val with
        | nonStr t => simp [tagYear] at h
        | str s =>
            unfold tagYear at h
            dsimp only at h
            by_cases hc : s ≠ "" ∧ 10 ≤ s.data.length ∧
                s.data.get? 4 = some ':' ∧ s.data.get? 7 = some ':'
            · rw [if_pos hc] at h
              obtain ⟨-, h1, h2, h3⟩ := hc
              exact ⟨s, rfl, h1, h2, h3, (Option.some.inj h).symm⟩
            · rw [if_neg hc] at h
              simp at h
  · rintro ⟨s, rfl, h1, h2, h3, rfl⟩
    have hs : s ≠ "" := by
      intro hs0
      subst hs0
      exact absurd h1 (by decide)
    unfold tagYear
    dsimp only
    rw [if_pos ⟨hs, h1, h2, h3⟩]

lemma afterTarget_dup (f : FileEnv) (st : RunState) (mt : MType)
    (target0 : String) (h0 : String) (hh : f.hash = some h0)
    (hmem : some h0 ∈ hashesGet st.hashes target0)
    (hrm : f.removeSourceOk = true) :
    afterTarget f st mt target0 =
      ⟨{ st with dupDeleted := st.dupDeleted + 1 }, [.deletedDuplicate],
       .normal⟩ := by
  unfold afterTarget
  rw [hh]
  dsimp only
  rw [if_pos hmem]
  unfold dupDelete
  rw [if_pos hrm]

lemma processFile_dup (f : FileEnv) (st : RunState) (b h0 : String)
    (hh : f.hash = some h0) (hrt : resolvedTarget f = some b)
    (hmem : some h0 ∈ hashesGet st.hashes b) (hrm : f.removeSourceOk = true) :
    (processFile f st).evs = [.deletedDuplicate] ∧
    (processFile f st).st.dupDeleted = st.dupDeleted + 1 ∧
    (processFile f st).status = .normal := by
  unfold resolvedTarget at hrt
  unfold processFile
  cases hcl : classStage f with
  | skippedDest => rw [hcl] at hrt; simp at hrt
  | nonMedia => rw [hcl] at hrt; simp at hrt
  | toArchive =>
      rw [hcl] at hrt
      dsimp only at hrt ⊢
      obtain rfl : ARCHIVES_DIR = b := Option.some.inj hrt
      rw [afterTarget_dup f { st with archiveMoved := st.archiveMoved + 1 }
        .archiveT ARCHIVES_DIR h0 hh hmem hrm]
      exact ⟨rfl, rfl, rfl⟩
  | media mt d =>
      rw [hcl] at hrt
      dsimp only at hrt ⊢
      obtain rfl : targetOfDate d = b := Option.some.inj hrt
      cases d with
      | errorDate =>
          dsimp only
          rw [afterTarget_dup f { st with errors := st.errors + 1 } mt
            (targetOfDate .errorDate) h0 hh hmem hrm]
          exact ⟨rfl, rfl, rfl⟩
      | year y =>
          dsimp only
          rw [afterTarget_dup f st mt (targetOfDate (.year y)) h0 hh hmem hrm]
          exact ⟨rfl, rfl, rfl⟩
      | noDate t =>
          dsimp only
          rw [afterTarget_dup f { st with noDate := st.noDate + 1 } mt
            (targetOfDate (.noDate t)) h0 hh hmem hrm]
          exact ⟨rfl, rfl, rfl⟩

/-- C9: the size categorizer maps every readable byte size to exactly one of
the six tiers at the byte boundaries 0.5 MB = 524288, 1 MB = 1048576,
2 MB = 2097152, 5 MB = 5242880 and 10 MB = 10485760 (lower bound inclusive,
upper bound exclusive; 10 MB and above is `huge`); a failed `stat` yields
`unknown_size`; and an `unknown_size` file is still routed to the no-date
bucket (a no-date outcome, not an error outcome). -/
theorem c9_size_categorizer :
    (∀ sz : Nat,
      (get_file_size_category (some sz) = "tiny_under_0.5MB" ↔ sz < 524288) ∧
      (get_file_size_category (some sz) = "small_0.5-1MB" ↔
        524288 ≤ sz ∧ sz < 1048576) ∧
      (get_file_size_category (some sz) = "medium_1-2MB" ↔
        1048576 ≤ sz ∧ sz < 2097152) ∧
      (get_file_size_category (some sz) = "large_2-5MB" ↔
        2097152 ≤ sz ∧ sz < 5242880) ∧
      (get_file_size_category (some sz) = "xlarge_5-10MB" ↔
        5242880 ≤ sz ∧ sz < 10485760) ∧
      (get_file_size_category (some sz) = "huge_over_10MB" ↔ 10485760 ≤ sz)) ∧
    get_file_size_category none = "unknown_size" ∧
    (∀ o : Option Nat, get_file_size_category o ∈
      ["tiny_under_0.5MB", "small_0.5-1MB", "medium_1-2MB", "large_2-5MB",
       "xlarge_5-10MB", "huge_over_10MB", "unknown_size"]) ∧
    dateResolve none none = .noDate "unknown_size" ∧
    targetOfDate (dateResolve none none) = NO_DATE_DIR ++ "/unknown_size" := by
  refine ⟨fun sz => ?_, rfl, fun o => ?_, rfl, rfl⟩
  · rw [sizeCat_eq]
    split_ifs with h1 h2 h3 h4 h5 <;>
      refine ⟨?_, ?_, ?_, ?_, ?_, ?_⟩ <;>
        first
          | exact iff_of_true rfl (by omega)
          | exact iff_of_false (by decide) (by omega)
  · cases o with
    | none => decide
    | some sz =>
        rw [sizeCat_eq]
        split_ifs <;> decide

/-- C5: date extraction reads the original-capture tag 36867 first and falls
back to the generic tag 306; a tag value is accepted iff it is a string of
length at least 10 with a colon at character positions 4 and 7, in which case
the first four characters are the year; a file whose EXIF dictionary is
missing yields no date. -/
theorem c5_date_extraction (ext : String) (hext : ext ∈ IMAGE_EXTENSIONS)
    (data : Nat → Option ExifVal) :
    (get_date_taken ext (.ok (some data)) =
      match tagYear (data 36867) with
      | some y => some y
      | none => tagYear (data 306)) ∧
    get_date_taken ext (.ok none) = none ∧
    (∀ v y, tagYear v = some y ↔
      ∃ s, v = some (.str s) ∧ 10 ≤ s.data.length ∧
        s.data.get? 4 = some ':' ∧ s.data.get? 7 = some ':' ∧
        y = String.mk (s.data.take 4)) := by
  refine ⟨?_, ?_, tagYear_iff⟩
  · unfold get_date_taken
    rw [if_pos hext]
    rfl
  · unfold get_date_taken
    rw [if_pos hext]
    rfl

/-- C5 witness: a synthetic image carrying only the original-capture tag
`2021:06:15 10:00:00` resolves to the year `2021`. -/
theorem c5_date_extraction_witness :
    ".jpg" ∈ IMAGE_EXTENSIONS ∧
    get_date_taken ".jpg"
      (.ok (some (fun t =>
        if t = 36867 then some (.str "2021:06:15 10:00:00") else none))) =
      some "2021" := by
  refine ⟨by decide, ?_⟩
  rw [(c5_date_extraction ".jpg" (by decide)
    (fun t => if t = 36867 then some (.str "2021:06:15 10:00:00") else none)).1]
  decide

/-- C8: the decoder handle is not released on every exit path.  When the
decoder raises after `Image.open` succeeded (for example `img.load()` on a
truncated file), the handler at lines 132-145 swallows the exception and
`img.close()` at line 127 is never executed: the handle stays open.  Only the
non-raising path closes the handle. -/
theorem c8_handle_leak :
    get_date_taken_handle ".jpg" (.raised true .genExc) =
      ⟨none, true, false⟩ ∧
    (get_date_taken_handle ".jpg" (.raised true .unidExc)).opened = true ∧
    (get_date_taken_handle ".jpg" (.raised true .unidExc)).closed = false ∧
    (∀ exif, (get_date_taken_handle ".jpg" (.ok exif)).closed = true) := by
  refine ⟨by decide, by decide, by decide, fun exif => ?_⟩
  unfold get_date_taken_handle
  rw [if_pos (by decide : (".jpg" : String) ∈ IMAGE_EXTENSIONS)]

/-- C1 counterexample: a `.jpg` whose decoder raises `UnidentifiedImageError`
(the spec's `Unreadable` outcome for an unidentifiable file) resolves to the
`no_date/unknown_size` bucket, not the errors bucket. -/
theorem c1_cex :
    get_date_taken ".jpg" (.raised true .unidExc) = none ∧
    get_date_taken ".jpg" (.raised true .genExc) = none ∧
    resolvedTarget unidEnv = some (NO_DATE_DIR ++ "/unknown_size") ∧
    NO_DATE_DIR ++ "/unknown_size" ≠ ERROR_DIR := by
  refine ⟨by decide, by decide, by decide, by decide⟩

/-- C1 (amended): only a file that vanishes mid-read (`FileNotFoundError`)
routes to the errors bucket; an unidentifiable file and any other decode
failure yield no date and route to the no-date bucket, exactly like a
readable file without a timestamp tag. -/
theorem c1_amended (f : FileEnv) (hdest : f.inDest = false)
    (himg : pyLower f.suffix ∈ IMAGE_EXTENSIONS) :
    (∀ a, f.decode = .raised a .fnfExc → resolvedTarget f = some ERROR_DIR) ∧
    (∀ a, f.decode = .raised a .unidExc →
      resolvedTarget f =
        some (NO_DATE_DIR ++ "/" ++ get_file_size_category f.statSize)) ∧
    (∀ a, f.decode = .raised a .genExc →
      resolvedTarget f =
        some (NO_DATE_DIR ++ "/" ++ get_file_size_category f.statSize)) := by
  have hnd : ¬(f.inDest = true) := by rw [hdest]; exact Bool.false_ne_true
  refine ⟨fun a hd => ?_, fun a hd => ?_, fun a hd => ?_⟩
  all_goals (
    first
      | (have hg : get_date_taken (pyLower f.suffix) f.decode = some "error" := by
          unfold get_date_taken
          rw [if_pos himg, hd])
      | (have hg : get_date_taken (pyLower f.suffix) f.decode = none := by
          unfold get_date_taken
          rw [if_pos himg, hd]))
  all_goals (
    unfold resolvedTarget classStage
    rw [if_neg hnd]
    dsimp only
    rw [if_pos himg, hg]
    rfl)

/-- C1 amended witness: a vanished-mid-read `.jpg` resolves to the errors
bucket. -/
theorem c1_amended_witness :
    resolvedTarget { baseEnv with decode := .raised true .fnfExc } =
      some ERROR_DIR :=
  (c1_amended { baseEnv with decode := .raised true .fnfExc } rfl
    (by decide)).1 true rfl

/-- C2: within one run, at most one destination entry is committed per
(bucket, content-fingerprint) pair; and a file whose fingerprint is already
recorded for its resolved bucket is deleted from the source, recorded as
duplicate-deleted, and its destination is never written (its event list is
exactly the source deletion, with no commit). -/
theorem c2_dedup :
    (∀ files : List FileEnv, (∀ f ∈ files, f.hash ≠ some "") →
      ∀ b h, commitsOf (runFiles files initState).2.1 b h ≤ 1) ∧
    (∀ (f : FileEnv) (st : RunState) (b h0 : String),
      f.hash = some h0 → resolvedTarget f = some b →
      some h0 ∈ hashesGet st.hashes b → f.removeSourceOk = true →
      (processFile f st).evs = [.deletedDuplicate] ∧
      (processFile f st).st.dupDeleted = st.dupDeleted + 1 ∧
      (processFile f st).status = .normal) := by
  constructor
  · intro files hne b h
    exact ((runFiles_inv files) initState hne).1 b h
  · intro f st b h0 hh hrt hmem hrm
    exact processFile_dup f st b h0 hh hrt hmem hrm

/-- C2 witness: a one-file run commits `img.jpg` at most once into its
bucket, and the same file processed against a state that already recorded its
hash for that bucket is deleted as a duplicate with no commit. -/
theorem c2_dedup_witness :
    commitsOf (runFiles [baseEnv] initState).2.1
      (NO_DATE_DIR ++ "/unknown_size") "ab" ≤ 1 ∧
    ((processFile baseEnv dupStateW).evs = [.deletedDuplicate] ∧
     (processFile baseEnv dupStateW).st.dupDeleted = dupStateW.dupDeleted + 1 ∧
     (processFile baseEnv dupStateW).status = .normal) :=
  ⟨c2_dedup.1 [baseEnv]
      (fun f hf => by rw [List.mem_singleton] at hf; subst hf; decide) _ _,
   c2_dedup.2 baseEnv dupStateW (NO_DATE_DIR ++ "/unknown_size") "ab" rfl
      (by decide) (by decide) rfl⟩

/-- C3 counterexample: two identical no-date JPEGs in one run yield three
counted outcomes (`no_date` twice plus `duplicate_deleted` once): the second
file is counted both when its bucket is determined (line 270) and again when
it is deleted as a duplicate, so outcome counters do not sum to the number of
discovered files. -/
theorem c3_cex :
    [baseEnv, baseEnv].length = 2 ∧
    totalCount (runFiles [baseEnv, baseEnv] initState).1 = 3 ∧
    (runFiles [baseEnv, baseEnv] initState).1.noDate = 2 ∧
    (runFiles [baseEnv, baseEnv] initState).1.dupDeleted = 1 := by
  refine ⟨rfl, by decide, by decide, by decide⟩

/-- C3 (amended): every discovered file whose processing completes (its
conflict loops terminate) increments at least one run counter — none is
dropped — but a file pre-counted at bucket determination (`no_date`,
`archive`) or counted as converted can be counted again by a later duplicate,
error or move outcome, so a file may increment more than one counter. -/
theorem c3_amended (f : FileEnv) (st : RunState)
    (hfo : (processFile f st).status ≠ .fuelOut) :
    totalCount st + 1 ≤ totalCount (processFile f st).st :=
  processFile_delta f st hfo

/-- C3 amended witness: the baseline file increments the counters of the
initial state. -/
theorem c3_amended_witness :
    (processFile baseEnv initState).status ≠ PStatus.fuelOut ∧
    totalCount initState + 1 ≤ totalCount (processFile baseEnv initState).st :=
  ⟨by decide, c3_amended baseEnv initState (by decide)⟩

/-- C4 counterexample: a file whose move raises `PermissionError`, with the
source still present, is counted as an error but never relocated into the
errors bucket — its event list is empty. -/
theorem c4_cex :
    (processFile permEnv initState).evs = [] ∧
    (processFile permEnv initState).st.errors = 1 ∧
    permEnv.srcExistsAtHandler = true ∧
    (processFile permEnv initState).status = .normal := by
  refine ⟨by decide, by decide, rfl, by decide⟩

/-- C4 (amended): failures during one file are caught at the per-file
boundary and counted — `FileNotFoundError` as skipped, `PermissionError` and
any other exception as an error — but only the generic-exception path
relocates the file (when the source still exists) into the errors bucket
under a name-conflict-resolved name; `PermissionError` leaves the file in
place; and when the relocation move itself fails, the exception escapes the
handler and the run aborts instead of continuing. -/
theorem c4_amended :
    (∀ f st, handleExc f st .notFound =
        ⟨{ st with skipped := st.skipped + 1 }, [], .normal⟩) ∧
    (∀ f st, (handleExc f st .permission).st.errors = st.errors + 1 ∧
        (handleExc f st .permission).evs = [] ∧
        (handleExc f st .permission).status = .normal) ∧
    (∀ f st n, f.srcExistsAtHandler = true → f.handlerMoveOk = true →
        resolveLoop (f.disk ERROR_DIR) none (genName f) f.fuel
          (f.stem ++ f.suffix) 1 = .final n →
        handleExc f st .failed =
          ⟨{ st with errors := st.errors + 1 }, [.relocatedToErrors n],
           .normal⟩) ∧
    (∀ f st n, f.srcExistsAtHandler = true → f.handlerMoveOk = false →
        resolveLoop (f.disk ERROR_DIR) none (genName f) f.fuel
          (f.stem ++ f.suffix) 1 = .final n →
        (handleExc f st .failed).status = .aborted) ∧
    (∀ f st, f.srcExistsAtHandler = false →
        handleExc f st .failed =
          ⟨{ st with errors := st.errors + 1 }, [], .normal⟩) ∧
    (∀ f fs st, (processFile f st).status = .normal →
        runFiles (f :: fs) st =
          ((runFiles fs (processFile f st).st).1,
           (processFile f st).evs ++ (runFiles fs (processFile f st).st).2.1,
           (runFiles fs (processFile f st).st).2.2)) ∧
    (∀ f fs st, (processFile f st).status = .aborted →
        runFiles (f :: fs) st =
          ((processFile f st).st, (processFile f st).evs, .aborted)) := by
  refine ⟨fun f st => rfl, fun f st => ⟨rfl, rfl, rfl⟩, ?_, ?_, ?_, ?_, ?_⟩
  · intro f st n hsrc hmv hres
    unfold handleExc
    rw [if_pos hsrc, hres]
    dsimp only
    rw [if_pos hmv]
  · intro f st n hsrc hmv hres
    unfold handleExc
    rw [if_pos hsrc, hres]
    dsimp only
    rw [if_neg (by rw [hmv]; exact Bool.false_ne_true)]
  · intro f st hsrc
    unfold handleExc
    rw [if_neg (by rw [hsrc]; exact Bool.false_ne_true)]
  · exact runFiles_cons_normal
  · intro f fs st h
    exact runFiles_cons_stop f fs st .aborted h (by simp)

/-- C4 amended witness: for the permission-denied file, the handler counts an
error, relocates nothing, and a normally-completing file lets the run
continue into the rest of the list. -/
theorem c4_amended_witness :
    ((handleExc permEnv initState .permission).st.errors =
        initState.errors + 1 ∧
      (handleExc permEnv initState .permission).evs = [] ∧
      (handleExc permEnv initState .permission).status = .normal) ∧
    handleExc baseEnv initState .failed =
      ⟨{ initState with errors := initState.errors + 1 },
       [.relocatedToErrors "img.jpg"], .normal⟩ ∧
    runFiles [baseEnv] initState =
      ((runFiles ([] : List FileEnv) (processFile baseEnv initState).st).1,
       (processFile baseEnv initState).evs ++
         (runFiles ([] : List FileEnv) (processFile baseEnv initState).st).2.1,
       (runFiles ([] : List FileEnv) (processFile baseEnv initState).st).2.2) :=
  ⟨c4_amended.2.1 permEnv initState,
   c4_amended.2.2.1 baseEnv initState "img.jpg" rfl rfl (by decide),
   c4_amended.2.2.2.2.2.1 baseEnv [] initState (by decide)⟩

/-- C7 counterexample: a HEIC file whose conversion fails is relocated into
the errors bucket under its original name `pic.heic` even though a different
file already occupies `errors/pic.heic` — the relocation at lines 391-395
performs no conflict resolution. -/
theorem c7_cex :
    (processFile heicFailEnv initState).evs =
      [.relocatedToErrors "pic.heic"] ∧
    heicFailEnv.disk ERROR_DIR "pic.heic" = some (some "zz") ∧
    (processFile heicFailEnv initState).st.errors = 1 ∧
    (processFile heicFailEnv initState).status = .normal := by
  refine ⟨by decide, by decide, by decide, by decide⟩

/-- C7 (amended): error outcomes are counted in the run summary, but
relocation into the errors bucket is uneven: the generic-exception handler
relocates (when the source exists) under a name-conflict-resolved name, a
failed HEIC conversion relocates under the file's original, unresolved name
regardless of what occupies it, and a permission-denied failure is counted
without any relocation. -/
theorem c7_amended :
    (∀ f st target n, resolveLoop (f.disk target) f.hash (heicName f) f.fuel
        (f.stem ++ ".jpg") 1 = .final n → f.convertOk = false →
        f.heicErrorMoveOk = true →
        heicPhase f st target =
          ⟨{ st with errors := st.errors + 1 },
           [.relocatedToErrors (f.stem ++ f.suffix)], .normal⟩) ∧
    (∀ f st, (handleExc f st .permission).st.errors = st.errors + 1 ∧
        (handleExc f st .permission).evs = []) ∧
    (∀ f st n, f.srcExistsAtHandler = true → f.handlerMoveOk = true →
        resolveLoop (f.disk ERROR_DIR) none (genName f) f.fuel
          (f.stem ++ f.suffix) 1 = .final n →
        (handleExc f st .failed).evs = [.relocatedToErrors n] ∧
        (handleExc f st .failed).st.errors = st.errors + 1) := by
  refine ⟨?_, fun f st => ⟨rfl, rfl⟩, ?_⟩
  · intro f st target n hres hcv hmv
    unfold heicPhase
    rw [hres]
    dsimp only
    rw [if_neg (by rw [hcv]; exact Bool.false_ne_true)]
    rw [if_pos hmv]
  · intro f st n hsrc hmv hres
    unfold handleExc
    rw [if_pos hsrc, hres]
    dsimp only
    rw [if_pos hmv]
    exact ⟨rfl, rfl⟩

/-- C7 amended witness: the failed HEIC conversion of `pic.heic` is counted
and relocated under its original name. -/
theorem c7_amended_witness :
    heicPhase heicFailEnv initState (NO_DATE_DIR ++ "/unknown_size") =
      ⟨{ initState with errors := initState.errors + 1 },
       [.relocatedToErrors ("pic" ++ ".heic")], .normal⟩ :=
  c7_amended.1 heicFailEnv initState (NO_DATE_DIR ++ "/unknown_size")
    "pic.jpg" (by decide) rfl rfl

/-- C6: conflict resolution starts from the desired name with a per-item
counter starting at 1; each occupied, non-matching candidate is renamed to
`stem_counter` before the extension (before `.jpg` for HEIC conversions) and
the existence check repeats; the loop ends either at a name not on disk —
which is the original name or `stem_j` with `j ≥ 1` — or at a fingerprint
match, which triggers duplicate deletion. -/
theorem c6_conflict_naming :
    (∀ f k, genName f k = f.stem ++ "_" ++ Nat.repr k ++ f.suffix) ∧
    (∀ f k, heicName f k = f.stem ++ "_" ++ Nat.repr k ++ ".jpg") ∧
    (∀ disk srcHash mk fuel cand k (eh : Option String), disk cand = some eh →
        ¬(truthyStr eh = true ∧ srcHash = eh) →
        resolveLoop disk srcHash mk (fuel + 1) cand k =
          resolveLoop disk srcHash mk fuel (mk k) (k + 1)) ∧
    (∀ f target n, resolveLoop (f.disk target) f.hash (genName f) f.fuel
        (f.stem ++ f.suffix) 1 = .final n →
        f.disk target n = none ∧
        (n = f.stem ++ f.suffix ∨ ∃ j, 1 ≤ j ∧ n = genName f j)) ∧
    (∀ f target n, resolveLoop (f.disk target) f.hash (heicName f) f.fuel
        (f.stem ++ ".jpg") 1 = .final n →
        f.disk target n = none ∧
        (n = f.stem ++ ".jpg" ∨ ∃ j, 1 ≤ j ∧ n = heicName f j)) ∧
    (∀ f target n, resolveLoop (f.disk target) f.hash (genName f) f.fuel
        (f.stem ++ f.suffix) 1 = .dup n →
        ∃ h, f.disk target n = some (some h) ∧ h ≠ "" ∧ f.hash = some h) := by
  refine ⟨fun f k => rfl, fun f k => rfl, ?_, ?_, ?_, ?_⟩
  · intro disk srcHash mk fuel cand k eh hd hm
    exact resolveLoop_step disk srcHash mk fuel cand k eh hd hm
  · intro f target n h
    exact resolveLoop_final_spec (f.disk target) f.hash (genName f)
      f.fuel (f.stem ++ f.suffix) 1 n h
  · intro f target n h
    exact resolveLoop_final_spec (f.disk target) f.hash (heicName f)
      f.fuel (f.stem ++ ".jpg") 1 n h
  · intro f target n h
    exact resolveLoop_dup_spec (f.disk target) f.hash (genName f)
      f.fuel (f.stem ++ f.suffix) 1 n h

/-- C6 witness: with `img.jpg` occupied by different content, one renaming
step reaches the fresh name `img_1.jpg`, which the resolver accepts. -/
theorem c6_conflict_naming_witness :
    resolveLoop (conflictEnv.disk "b") conflictEnv.hash (genName conflictEnv)
        (1 + 1) ("img" ++ ".jpg") 1 =
      resolveLoop (conflictEnv.disk "b") conflictEnv.hash
        (genName conflictEnv) 1 (genName conflictEnv 1) 2 ∧
    (conflictEnv.disk "b" "img_1.jpg" = none ∧
      ("img_1.jpg" = conflictEnv.stem ++ conflictEnv.suffix ∨
        ∃ j, 1 ≤ j ∧ "img_1.jpg" = genName conflictEnv j)) :=
  ⟨c6_conflict_naming.2.2.1 (conflictEnv.disk "b") conflictEnv.hash
      (genName conflictEnv) 1 ("img" ++ ".jpg") 1 (some "zz") (by decide)
      (by decide),
   c6_conflict_naming.2.2.2.1 conflictEnv "b" "img_1.jpg" (by decide)⟩

/-- C10: an existing destination file whose hash cannot be computed is
treated as a non-match — the resolver proceeds directly to the next renamed
candidate — and a duplicate verdict (the only path that deletes the source
inside the loop) can only arise from an existing file with an available,
non-empty hash equal to the source's. -/
theorem c10_unhashable_existing :
    (∀ disk srcHash mk fuel cand k, disk cand = some none →
        resolveLoop disk srcHash mk (fuel + 1) cand k =
          resolveLoop disk srcHash mk fuel (mk k) (k + 1)) ∧
    (∀ disk srcHash mk fuel cand k n,
        resolveLoop disk srcHash mk fuel cand k = .dup n →
        ∃ h, disk n = some (some h) ∧ h ≠ "" ∧ srcHash = some h) := by
  constructor
  · intro disk srcHash mk fuel cand k hd
    refine resolveLoop_step disk srcHash mk fuel cand k none hd ?_
    rintro ⟨ht, -⟩
    simp [truthyStr] at ht
  · intro disk srcHash mk fuel cand k n h
    exact resolveLoop_dup_spec disk srcHash mk fuel cand k n h

/-- C10 witness: an unhashable existing `a.jpg` forces one renaming step; a
duplicate verdict on a disk of hash-`"zz"` files exhibits the matching
hash. -/
theorem c10_unhashable_existing_witness :
    (resolveLoop unhashDisk (some "ab") (fun k => "a_" ++ Nat.repr k ++ ".jpg")
        (1 + 1) "a.jpg" 1 =
      resolveLoop unhashDisk (some "ab") (fun k => "a_" ++ Nat.repr k ++ ".jpg")
        1 ("a_" ++ Nat.repr 1 ++ ".jpg") 2) ∧
    (∃ h, dupDisk "d.jpg" = some (some h) ∧ h ≠ "" ∧
      (some "zz" : Option String) = some h) :=
  ⟨c10_unhashable_existing.1 unhashDisk (some "ab")
      (fun k => "a_" ++ Nat.repr k ++ ".jpg") 1 "a.jpg" 1 (by decide),
   c10_unhashable_existing.2 dupDisk (some "zz")
      (fun k => "d_" ++ Nat.repr k ++ ".jpg") 1 "d.jpg" 1 "d.jpg" (by decide)⟩

end PhotoSorter
